import Mathlib

/-!
Verification development for the Container Selection & Usage Aggregation
Engine (`web-flow` repository).

The definitions below are a shallow embedding of the three core services:

* `bin_packaging_service.py`   (item expansion, bin building, packing selection,
  batch orchestration),
* `bin_usage_statistics_service.py`  (usage aggregation),
* `bin_usage_csv_export_service.py`  (report join / CSV rows).

Python numbers are modelled as rationals (`ℚ`); a raw Python value that a
product line or catalog field may hold is modelled by `PyVal`, which records
what `float(v)` and `int(v)` would return (`none` = the coercion raises).
Fallible Python code (paths that can raise) is modelled with `Except Unit`.
The third-party 3D packer (`py3dbp`) is not part of the repository; every
definition that calls it is parameterised by an abstract packing function
`pack : Bin → List Item → Except Unit (List Item)` returning the list of
items the packer placed into the bin (`.error` = the packer raised).
-/

/- The library marks the rational operations and `mergeSort` irreducible;
witness statements evaluate concrete runs of the services, so restore
reducibility (the kernel re-checks every proof regardless). -/
set_option allowUnsafeReducibility true in
attribute [semireducible] Rat.mul Rat.add Rat.sub Rat.inv Rat.ofScientific

set_option allowUnsafeReducibility true in
attribute [semireducible] List.mergeSort

set_option allowUnsafeReducibility true in
attribute [semireducible] List.merge

namespace WebFlow

instance {ε α : Type} [DecidableEq ε] [DecidableEq α] : DecidableEq (Except ε α) :=
  fun a b =>
    match a, b with
    | .error e, .error e' =>
      if h : e = e' then isTrue (by rw [h]) else isFalse (by intro hh; cases hh; exact h rfl)
    | .ok x, .ok y =>
      if h : x = y then isTrue (by rw [h]) else isFalse (by intro hh; cases hh; exact h rfl)
    | .error _, .ok _ => isFalse (by intro hh; cases hh)
    | .ok _, .error _ => isFalse (by intro hh; cases hh)

/-- A raw Python scalar as seen by the services: either a genuine number
(int/float, on which arithmetic works and `float`/`int` coercions succeed),
or a string, carrying the results of `float(v)` / `int(v)` (`none` when the
coercion raises).  Arithmetic on a string raises. -/
inductive PyVal where
  | num (q : ℚ)
  | str (s : String) (asFloat : Option ℚ) (asInt : Option Int)
  deriving DecidableEq

/-- Python `int()` truncation toward zero of a rational (what `int(float)` does). -/
def ratTrunc (q : ℚ) : Int := q.num / (q.den : Int)

/-- Result of Python `float(v)` (`none` = raises). -/
def pyToFloat : PyVal → Option ℚ
  | .num q => some q
  | .str _ f _ => f

/-- Result of Python `int(v)` (`none` = raises). -/
def pyToInt : PyVal → Option Int
  | .num q => some (ratTrunc q)
  | .str _ _ i => i

/-- Python truthiness of a `PyVal` (`0`, `0.0` and `""` are falsy). -/
def pyTruthy : PyVal → Bool
  | .num q => q != 0
  | .str s _ _ => s != ""

/-- Python `x or default` for an optional string field (`None` and `""` are falsy). -/
def orStr (v : Option String) (dflt : String) : String :=
  match v with
  | none => dflt
  | some s => if s = "" then dflt else s

/-- A `py3dbp` item: `Item(name=..., width=w, height=h, depth=l, weight=...)`. -/
structure Item where
  name : String
  width : ℚ
  height : ℚ
  depth : ℚ
  weight : ℚ
  deriving DecidableEq

/-- A `py3dbp` bin as built by `build_bins_from_sizes`
(`Bin(name, width=fw, height=fh, depth=fl, max_weight)` plus the `url` attribute). -/
structure Bin where
  name : String
  width : ℚ
  height : ℚ
  depth : ℚ
  maxWeight : ℚ
  url : Option String
  deriving DecidableEq

/-- One raw product-line dict of an order.  `none` fields model a missing key
or a `None` value (the code treats both alike via `dict.get`). -/
structure RawProduct where
  title : Option String
  id : Option String
  length : Option PyVal
  width : Option PyVal
  height : Option PyVal
  weight : Option PyVal
  quantity : Option PyVal
  length_unit : Option String
  weight_unit : Option String
  deriving DecidableEq

/-- The value of an order's `"products"` key: a list of product dicts, or a
truthy non-iterable value (iterating / `len()` raises `TypeError`). -/
inductive PyProducts where
  | list (ps : List RawProduct)
  | nonIterable
  deriving DecidableEq

/-- One raw order dict. -/
structure Order where
  transaction_id : Option String
  index : Option Int
  products : Option PyProducts
  deriving DecidableEq

/-- One raw catalog ("sizes") record. -/
structure SizeRec where
  url : Option String
  size_cm : Option String
  length : Option PyVal
  width : Option PyVal
  height : Option PyVal
  packageId : Option String
  id : Option String
  sku : Option String
  code : Option String
  title : Option String
  name : Option String
  inner_length : Option PyVal
  innerLength : Option PyVal
  inner_width : Option PyVal
  innerWidth : Option PyVal
  inner_height : Option PyVal
  innerHeight : Option PyVal
  empty_weight : Option PyVal
  emptyWeight : Option PyVal
  status : Option String
  deriving DecidableEq

/-- An all-absent catalog record: the empty dict `{}` used when a key has no
catalog match. -/
def emptySizeRec : SizeRec :=
  { url := none, size_cm := none, length := none, width := none, height := none
    packageId := none, id := none, sku := none, code := none, title := none
    name := none, inner_length := none, innerLength := none, inner_width := none
    innerWidth := none, inner_height := none, innerHeight := none
    empty_weight := none, emptyWeight := none, status := none }

/-! ### `_PackingComputationHelper.build_bins_from_sizes` -/

/-- One step of `build_bins_from_sizes`: a record with a missing or
non-coercible or non-positive dimension is skipped. -/
def bin_of_size_rec (s : SizeRec) : Option Bin :=
  match s.length, s.width, s.height with
  | some lv, some wv, some hv =>
    match pyToFloat lv, pyToFloat wv, pyToFloat hv with
    | some fl, some fw, some fh =>
      if 0 < fl ∧ 0 < fw ∧ 0 < fh then
        some { name := (s.size_cm.getD "bin"), width := fw, height := fh,
               depth := fl, maxWeight := 100000, url := s.url }
      else none
    | _, _, _ => none
  | _, _, _ => none

/-- `build_bins_from_sizes(sizes)` with the default keys and max weight. -/
def build_bins_from_sizes (sizes : List SizeRec) : List Bin :=
  sizes.filterMap bin_of_size_rec

/-! ### `_PackingComputationHelper.build_items_from_order` -/

/-- `str(p.get("title") or p.get("id") or "item")`. -/
def item_name (p : RawProduct) : String :=
  orStr p.title (orStr p.id "item")

/-- Python `str.lower()` (explicit char-list form, so that concrete runs
reduce). -/
def py_lower (s : String) : String := String.mk (s.data.map Char.toLower)

/-- The single `Item` built from a product line whose raw dimensions coerced to
`l, w, h` and raw weight to `wt`, after the unit conversions. -/
def expanded_item (p : RawProduct) (l w h wt : ℚ) : Item :=
  let lu := py_lower (orStr p.length_unit "cm")
  let (l, w, h) :=
    if lu = "mm" then (l / 10, w / 10, h / 10)
    else if lu = "m" ∨ lu = "meter" ∨ lu = "metre" then (l * 100, w * 100, h * 100)
    else (l, w, h)
  let wu := py_lower (orStr p.weight_unit "g")
  let wt :=
    if wu = "kg" then wt * 1000
    else if wu = "mg" then wt / 1000
    else wt
  { name := item_name p, width := w, height := h, depth := l, weight := wt }

/-- `int(quantity) if quantity is not None else 1` (`none` result = raises). -/
def quantity_coerce (q : Option PyVal) : Option Int :=
  match q with
  | none => some 1
  | some v => pyToInt v

/-- The items one product line contributes in `build_items_from_order`: a line
with a missing dimension or weight, a failing `float`/`int` coercion, or a
non-positive dimension / negative weight is dropped (`continue`). -/
def items_of_product (p : RawProduct) : List Item :=
  match p.length, p.width, p.height, p.weight with
  | some lv, some wv, some hv, some wtv =>
    match pyToFloat lv, pyToFloat wv, pyToFloat hv, pyToFloat wtv with
    | some l, some w, some h, some wt =>
      match quantity_coerce p.quantity with
      | some q =>
        if 0 < l ∧ 0 < w ∧ 0 < h ∧ 0 ≤ wt then
          List.replicate (max 1 q).toNat (expanded_item p l w h wt)
        else []
      | none => []
    | _, _, _, _ => []
  | _, _, _, _ => []

/-- `build_items_from_order(order)`.  Iterating a truthy non-iterable
`"products"` value raises (`.error`); a missing/falsy value yields `[]`. -/
def build_items_from_order (order : Order) : Except Unit (List Item) :=
  match order.products with
  | none => .ok []
  | some (.list ps) => .ok (ps.flatMap items_of_product)
  | some .nonIterable => .error ()

/-! ### Packing selection (`find_single_bin_for_items`, `find_single_bin_that_fits_all_items`) -/

/-- The abstract 3D packer: `packer.pack()` on a single-bin packer, returning
the items placed into the bin (`packed_bin.items`); `.error` = the call raised. -/
def Packing := Bin → List Item → Except Unit (List Item)

/-- The accepted bin together with the items the packer placed in it
(the mutated `packed_bin` returned by selection). -/
structure PackedBin where
  bin : Bin
  fitted : List Item
  deriving DecidableEq

/-- Sort key of the candidate list: `width * height * depth`. -/
def bin_vol (b : Bin) : ℚ := b.width * b.height * b.depth

/-- The comparison `candidate_bins.sort(key=volume)` sorts by. -/
def vol_le (a b : Bin) : Bool := bin_vol a ≤ bin_vol b

/-- Whether one candidate's packing attempt places every item
(the acceptance test `len(fitted) == len(items)`); a raising attempt counts
as no fit. -/
def full_fit (pack : Packing) (items : List Item) (b : Bin) : Bool :=
  match pack b items with
  | .error _ => false
  | .ok fitted => fitted.length == items.length

/-- The candidate loop: first candidate whose attempt places every item wins;
a raising attempt (`except: continue`) or a partial placement moves on. -/
def find_first_fit (pack : Packing) (items : List Item) : List Bin → Option PackedBin
  | [] => none
  | c :: rest =>
    match pack c items with
    | .error _ => find_first_fit pack items rest
    | .ok fitted =>
      if fitted.length = items.length then some ⟨c, fitted⟩
      else find_first_fit pack items rest

/-- `find_single_bin_for_items(items, sizes_list)`: empty item set selects
nothing; otherwise the candidates are rebuilt, sorted ascending by volume
(stable), and scanned for the first full fit. -/
def find_single_bin_for_items (pack : Packing) (items : List Item)
    (sizes : List SizeRec) : Option PackedBin :=
  if items.isEmpty then none
  else
    find_first_fit pack items ((build_bins_from_sizes sizes).mergeSort vol_le)

/-- `find_single_bin_that_fits_all_items(orders_list, sizes_list, index)`:
out-of-range index selects nothing; otherwise the items are rebuilt from the
indexed order (a raise there propagates) and selection proceeds as for the
single-order variant. -/
def find_single_bin_that_fits_all_items (pack : Packing) (orders : List Order)
    (sizes : List SizeRec) (index : Int) : Except Unit (Option PackedBin) :=
  if h : 0 ≤ index ∧ index.toNat < orders.length then
    match build_items_from_order (orders.get ⟨index.toNat, h.2⟩) with
    | .error e => .error e
    | .ok items => .ok (find_single_bin_for_items pack items sizes)
  else .ok none

/-! ### Packing summaries -/

/-- The `bin` sub-dict of a packing summary.  At the aggregation boundary any
dict with these keys may appear, so the fields are plain data. -/
structure BinInfo where
  name : String
  length : ℚ
  width : ℚ
  height : ℚ
  volume : ℚ
  fitted_items : ℕ
  url : Option String
  deriving DecidableEq

/-- One packing summary (a `PackingResult`). -/
structure Summary where
  order_index : Option Int
  order_id : Option String
  products_count : ℕ
  bin : Option BinInfo
  deriving DecidableEq

/-- The `bin_info` dict built from an accepted `PackedBin`. -/
def bin_info_of (pb : PackedBin) : BinInfo :=
  { name := pb.bin.name
    length := pb.bin.depth
    width := pb.bin.width
    height := pb.bin.height
    volume := pb.bin.depth * pb.bin.width * pb.bin.height
    fitted_items := pb.fitted.length
    url := pb.bin.url }

/-- `len(order.get("products") or [])`; `len()` of a truthy non-iterable raises. -/
def products_len (order : Order) : Except Unit ℕ :=
  match order.products with
  | none => .ok 0
  | some (.list ps) => .ok ps.length
  | some .nonIterable => .error ()

/-- `build_packing_summary_for_single(order, sizes_list, index)`: items are
built (a raise propagates), a bin is selected, and the summary dict is
assembled. -/
def build_packing_summary_for_single (pack : Packing) (order : Order)
    (sizes : List SizeRec) (index : Int) : Except Unit Summary := do
  let _ ← build_items_from_order order
  let items ← build_items_from_order order
  let bestBin := find_single_bin_for_items pack items sizes
  let pcount ← products_len order
  .ok { order_index := some index
        order_id := order.transaction_id
        products_count := pcount
        bin := bestBin.map bin_info_of }

/-- `build_packing_summary_for_order(orders_list, sizes_list, index)`: raises
on an out-of-range index, otherwise builds items (a raise propagates), runs
selection through `find_single_bin_that_fits_all_items`, and assembles the
summary dict. -/
def build_packing_summary_for_order (pack : Packing) (orders : List Order)
    (sizes : List SizeRec) (index : ℕ) : Except Unit Summary :=
  if h : index < orders.length then
    let order := orders.get ⟨index, h⟩
    match build_items_from_order order with
    | .error e => .error e
    | .ok _ =>
      match find_single_bin_that_fits_all_items pack orders sizes index with
      | .error e => .error e
      | .ok bestBin =>
        match products_len order with
        | .error e => .error e
        | .ok pcount =>
          .ok { order_index := some (index : Int)
                order_id := order.transaction_id
                products_count := pcount
                bin := bestBin.map bin_info_of }
  else .error ()

/-! ### `BinPackagingService.perform` (batch mode) -/

/-- The dict returned by `BinPackagingService.perform`. -/
structure PerformResult where
  total_orders : ℕ
  processed_orders : ℕ
  total_summaries : ℕ
  summaries : List Summary
  deriving DecidableEq

/-- The processed-order limit: `len(orders)` without a cap, else
`max(0, min(int(max_orders), len(orders)))` (a non-coercible cap falls back
to `len(orders)` and is modelled by passing `none`). -/
def compute_limit (maxOrders : Option Int) (n : ℕ) : ℕ :=
  match maxOrders with
  | none => n
  | some m => (max 0 (min m (n : Int))).toNat

/-- Batch mode: each index below the limit is attempted; a summary whose
construction raises is logged and skipped (`except: continue`), every other
summary is appended in index order. -/
def bin_packaging_perform (pack : Packing) (orders : List Order)
    (sizes : List SizeRec) (maxOrders : Option Int) : PerformResult :=
  let limit := compute_limit maxOrders orders.length
  let summaries := (List.range limit).filterMap
    (fun i => (build_packing_summary_for_order pack orders sizes i).toOption)
  { total_orders := orders.length
    processed_orders := limit
    total_summaries := summaries.length
    summaries := summaries }

/-! ### `BinUsageStatisticsService` (usage aggregation)

Python dicts preserve insertion order and in-place assignment keeps a key's
position, so the per-key state is an insertion-ordered association list. -/

/-- `d[k]` lookup on an insertion-ordered association list. -/
def dictGet {α : Type} (k : String) : List (String × α) → Option α
  | [] => none
  | (k', v) :: rest => if k' = k then some v else dictGet k rest

/-- `d[k] = v` on an insertion-ordered association list: replace in place, or
append a fresh key at the end. -/
def dictSet {α : Type} (k : String) (v : α) : List (String × α) → List (String × α)
  | [] => [(k, v)]
  | (k', v') :: rest => if k' = k then (k, v) :: rest else (k', v') :: dictSet k v rest

/-- One value of the `order_lookup` dict built by `create_order_lookup`. -/
structure LookupInfo where
  index : Option Int
  products_count : ℕ
  total_quantity : ℚ
  deriving DecidableEq

/-- One term of the `total_quantity` sum: `p.get("quantity", 0) or 0`
(a missing or falsy quantity contributes `0`; summing a truthy string raises). -/
def quantity_term (p : RawProduct) : Except Unit ℚ :=
  match p.quantity with
  | none => .ok 0
  | some v =>
    if pyTruthy v then
      match v with
      | .num q => .ok q
      | .str _ _ _ => .error ()
    else .ok 0

/-- `sum((p.get("quantity", 0) or 0) for p in (order.get("products") or []) ...)`;
iterating a truthy non-iterable `"products"` raises. -/
def lookup_total_quantity (order : Order) : Except Unit ℚ :=
  match order.products with
  | none => .ok 0
  | some (.list ps) => do
    let qs ← ps.mapM quantity_term
    .ok qs.sum
  | some .nonIterable => .error ()

/-- `len(order.get("products", []) if isinstance(order.get("products"), list) else [])`. -/
def lookup_products_count (order : Order) : ℕ :=
  match order.products with
  | some (.list ps) => ps.length
  | _ => 0

/-- `create_order_lookup(orders_data)`: one entry per order with a truthy
`transaction_id`, a later duplicate id overwriting the earlier entry. -/
def create_order_lookup (orders : List Order) :
    Except Unit (List (String × LookupInfo)) :=
  orders.foldlM
    (fun acc order =>
      match order.transaction_id with
      | some tid =>
        if tid ≠ "" then do
          let tq ← lookup_total_quantity order
          .ok (dictSet tid
            { index := order.index
              products_count := lookup_products_count order
              total_quantity := tq } acc)
        else .ok acc
      | none => .ok acc)
    []

/-- The enrichment sub-dict a detail receives when its order id resolves in the
lookup (`order_index_from_orders`, `actual_products_count`, `total_quantity`). -/
structure LookupJoin where
  order_index_from_orders : Option Int
  actual_products_count : ℕ
  total_quantity : ℚ
  deriving DecidableEq

/-- One order-detail entry of a per-container statistic.  `from_lookup` is
`some` exactly when the enrichment keys are present in the detail dict. -/
structure OrderDetail where
  order_id : Option String
  order_index : Option Int
  products_count : ℕ
  from_lookup : Option LookupJoin
  deriving DecidableEq

/-- The mutable per-key accumulator of `analyze_bin_usage` (one `bin_stats`
value). -/
structure BinAcc where
  name : String
  url : String
  length : ℚ
  width : ℚ
  height : ℚ
  volume : ℚ
  usage_count : ℕ
  orders_detail : List OrderDetail
  deriving DecidableEq

/-- The `defaultdict` default value. -/
def default_bin_acc : BinAcc :=
  { name := "bin", url := "", length := 0, width := 0, height := 0, volume := 0
    usage_count := 0, orders_detail := [] }

/-- `bin_info.get("url") or ""`. -/
def bin_key (bi : BinInfo) : String := orStr bi.url ""

/-- The enrichment of one detail: present iff the summary's order id is truthy
and resolves in the lookup. -/
def detail_join (lookup : List (String × LookupInfo)) (oid : Option String) :
    Option LookupJoin :=
  match oid with
  | some tid =>
    if tid ≠ "" then
      match dictGet tid lookup with
      | some info =>
        some { order_index_from_orders := info.index
               actual_products_count := info.products_count
               total_quantity := info.total_quantity }
      | none => none
    else none
  | none => none

/-- The `stats.update({...})` branch guarded by `if not stats["length"]`:
capture the summary's container metadata (`or 0.0` on a number is the
identity, so the raw fields are stored). -/
def set_meta (acc : BinAcc) (bi : BinInfo) (url : String) : BinAcc :=
  { acc with name := bi.name, url := url, length := bi.length,
             width := bi.width, height := bi.height, volume := bi.volume }

/-- `usage_count` increment plus the detail append of one loop iteration. -/
def add_use (acc : BinAcc) (d : OrderDetail) : BinAcc :=
  { acc with usage_count := acc.usage_count + 1,
             orders_detail := acc.orders_detail ++ [d] }

/-- The order-detail dict recorded for one summary. -/
def detail_of (lookup : List (String × LookupInfo)) (s : Summary) : OrderDetail :=
  { order_id := s.order_id
    order_index := s.order_index
    products_count := s.products_count
    from_lookup := detail_join lookup s.order_id }

/-- One iteration of the `analyze_bin_usage` loop: a summary with no `bin`
dict or an empty key leaves the state untouched; otherwise the key's
accumulator (created on first access) takes the summary's container metadata
while its stored `length` is falsy, counts one use, and appends one detail. -/
def analyze_step (lookup : List (String × LookupInfo))
    (state : List (String × BinAcc)) (s : Summary) : List (String × BinAcc) :=
  match s.bin with
  | none => state
  | some bi =>
    let url := bin_key bi
    if url = "" then state
    else
      let stats := (dictGet url state).getD default_bin_acc
      let stats := if stats.length = 0 then set_meta stats bi url else stats
      dictSet url (add_use stats (detail_of lookup s)) state

/-- `analyze_bin_usage(packing_summaries, order_lookup)`. -/
def analyze_bin_usage (lookup : List (String × LookupInfo))
    (summaries : List Summary) : List (String × BinAcc) :=
  summaries.foldl (analyze_step lookup) []

/-- `od.get("order_index_from_orders")`. -/
def detail_index_from_orders (d : OrderDetail) : Option Int :=
  d.from_lookup.bind (·.order_index_from_orders)

/-- `_coalesce_index`: the `order_index` when it is an int, else
`order_index_from_orders` when an int, else `0`. -/
def coalesce_index (d : OrderDetail) : Int :=
  match d.order_index with
  | some n => n
  | none =>
    match detail_index_from_orders d with
    | some m => m
    | none => 0

/-- The detail sort key
`(order_index is None and order_index_from_orders is None, coalesced index)`,
compared lexicographically (`False < True`). -/
def detail_sort_le (x y : OrderDetail) : Bool :=
  let fx := x.order_index.isNone && (detail_index_from_orders x).isNone
  let fy := y.order_index.isNone && (detail_index_from_orders y).isNone
  if fx = fy then decide (coalesce_index x ≤ coalesce_index y) else !fx

/-- One finalized per-container `UsageStatistic`.  `totals` holds
`(total_actual_products, total_quantity)` and is `some` exactly when those two
keys are present in the emitted dict. -/
structure Stat where
  name : String
  url : String
  length : ℚ
  width : ℚ
  height : ℚ
  volume : ℚ
  usage_count : ℕ
  orders_detail : List OrderDetail
  total_unique_orders : ℕ
  total_products_packed : ℕ
  totals : Option (ℕ × Int)
  deriving DecidableEq

/-- The `actual_products_count` a detail contributes to the
`total_actual_products` sum (`0` when the key is absent). -/
def detail_actual (d : OrderDetail) : ℕ :=
  match d.from_lookup with
  | some j => j.actual_products_count
  | none => 0

/-- The `int(...)` a detail contributes to the `total_quantity` sum. -/
def detail_quantity (d : OrderDetail) : Int :=
  match d.from_lookup with
  | some j => ratTrunc j.total_quantity
  | none => 0

/-- Finalization of one accumulator in `create_enhanced_statistics`: sorts the
detail list by the coalesced key, computes the totals over the (unsorted)
detail list, and emits `total_actual_products`/`total_quantity` only when the
former sum is positive. -/
def enhance_one (acc : BinAcc) : Stat :=
  let total_actual := (acc.orders_detail.map detail_actual).sum
  { name := acc.name
    url := acc.url
    length := acc.length
    width := acc.width
    height := acc.height
    volume := acc.volume
    usage_count := acc.usage_count
    orders_detail := acc.orders_detail.mergeSort detail_sort_le
    total_unique_orders := ((acc.orders_detail.filterMap (·.order_id)).dedup).length
    total_products_packed := (acc.orders_detail.map (·.products_count)).sum
    totals :=
      if 0 < total_actual then
        some (total_actual, (acc.orders_detail.map detail_quantity).sum)
      else none }

/-- `create_enhanced_statistics(bin_stats)`: finalize every accumulator in
dict-insertion order, then stable-sort by `usage_count` descending. -/
def create_enhanced_statistics (accs : List (String × BinAcc)) : List Stat :=
  (accs.map (fun kv => enhance_one kv.2)).mergeSort
    (fun a b => b.usage_count ≤ a.usage_count)

/-- `BinUsageStatisticsService.perform(packing_summaries, orders_data)`
(a raise inside lookup construction propagates out of the service). -/
def bin_usage_perform (summaries : List Summary) (orders : List Order) :
    Except Unit (List Stat) := do
  let lookup ← create_order_lookup orders
  .ok (create_enhanced_statistics (analyze_bin_usage lookup summaries))

/-! ### `BinUsageCsvExportService` (report join)

The service is modelled up to the rows handed to `csv.writer`: the output is
the list of rows (header first), each a list of cell strings. -/

/-- Python `str.strip()`: drop whitespace from both ends (explicit char-list
form, so that concrete runs reduce). -/
def py_strip (s : String) : String :=
  String.mk (((s.data.dropWhile Char.isWhitespace).reverse.dropWhile
    Char.isWhitespace).reverse)

/-- `_first_non_empty(*vals)`: the first value that is not `None` and whose
stripped string form is non-empty, stripped; else `""`. -/
def first_non_empty : List (Option String) → String
  | [] => ""
  | none :: rest => first_non_empty rest
  | some v :: rest => if py_strip v = "" then first_non_empty rest else py_strip v

/-- Round to the nearest integer, ties to even (the rounding of Python's
fixed-point `"{:.6f}"` format, on the rational value). -/
def round_half_even (q : ℚ) : Int :=
  let f := ⌊q⌋
  let r := q - f
  if r < 1 / 2 then f
  else if 1 / 2 < r then f + 1
  else if f % 2 = 0 then f else f + 1

/-- `"{:.6f}".format(f)`: sign, integer part, and a 6-digit fractional part. -/
def format_fixed6 (q : ℚ) : String :=
  let n := round_half_even (q * 1000000)
  let sign := if n < 0 then "-" else ""
  let m := n.natAbs
  let fs := toString (m % 1000000)
  sign ++ toString (m / 1000000) ++ "." ++
    (String.mk (List.replicate (6 - fs.length) '0') ++ fs)

/-- Python `s.rstrip(c)` for a single strip character. -/
def rstrip_char (c : Char) (s : String) : String :=
  String.mk ((s.data.reverse.dropWhile (fun x => x = c)).reverse)

/-- `_to_float_str(v)`: `""` for `None` or a failing `float()`, else the
6-fractional-digit rendering with trailing zeros and trailing point stripped. -/
def to_float_str (v : Option PyVal) : String :=
  match v with
  | none => ""
  | some pv =>
    match pyToFloat pv with
    | none => ""
    | some q => rstrip_char '.' (rstrip_char '0' (format_fixed6 q))

/-- Python `x or y` on two optional field values (a falsy first value falls
through to the second). -/
def orVal (a b : Option PyVal) : Option PyVal :=
  match a with
  | none => b
  | some v => if pyTruthy v then some v else b

/-- The fixed CSV header row. -/
def csv_header : List String :=
  ["PackageId", "URL", "Title", "Type",
   "OuterLength [cm]", "OuterWidth [cm]", "OuterHeight [cm]",
   "InnerLength [cm]", "InnerWidth [cm]", "InnerHeight [cm]",
   "MaxWeight [g]", "EmptyWeight [g]", "Cost", "Status", "Order count"]

/-- The `url_to_size` join index: sizes keyed by their stripped, non-empty url
(later duplicates overwrite). -/
def build_url_to_size (sizes : List SizeRec) : List (String × SizeRec) :=
  sizes.foldl
    (fun acc s =>
      let url := py_strip (orStr s.url "")
      if url = "" then acc else dictSet url s acc)
    []

/-- One emitted CSV row for a statistic: the catalog record is looked up by
the statistic's stripped url (the empty dict when absent), `Type` is the
literal `"bin"`, and `MaxWeight [g]` / `Cost` are intentionally blank. -/
def csv_row_of (sizeMap : List (String × SizeRec)) (stat : Stat) : List String :=
  let url := py_strip stat.url
  let size := (dictGet url sizeMap).getD emptySizeRec
  [first_non_empty [size.packageId, size.id, size.sku, size.code, some ""],
   url,
   first_non_empty [size.title, size.name, size.size_cm, some ""],
   "bin",
   to_float_str size.length,
   to_float_str size.width,
   to_float_str size.height,
   to_float_str (orVal size.inner_length size.innerLength),
   to_float_str (orVal size.inner_width size.innerWidth),
   to_float_str (orVal size.inner_height size.innerHeight),
   "",
   to_float_str (orVal size.empty_weight size.emptyWeight),
   "",
   first_non_empty [size.status, some ""],
   toString stat.usage_count]

/-- `BinUsageCsvExportService.perform(typ, stats, sizes)`, as the list of rows
written to the CSV buffer (header first; `typ` is unused by the body). -/
def bin_usage_csv_rows (typ : String) (stats : List Stat)
    (sizes : List SizeRec) : List (List String) :=
  let _ := typ
  csv_header :: stats.map (csv_row_of (build_url_to_size sizes))

/-! ## Helper lemmas -/

theorem products_len_ok_of_build (order : Order) (items : List Item)
    (h : build_items_from_order order = .ok items) :
    ∃ n, products_len order = .ok n := by
  unfold build_items_from_order at h
  unfold products_len
  match ho : order.products with
  | none => exact ⟨0, rfl⟩
  | some (.list ps) => exact ⟨ps.length, rfl⟩
  | some .nonIterable => rw [ho] at h; cases h

theorem build_single_unfold (pack : Packing) (order : Order) (sizes : List SizeRec)
    (i : Int) (items : List Item) (n : ℕ)
    (hits : build_items_from_order order = .ok items)
    (hn : products_len order = .ok n) :
    build_packing_summary_for_single pack order sizes i =
      .ok { order_index := some i, order_id := order.transaction_id,
            products_count := n,
            bin := (find_single_bin_for_items pack items sizes).map bin_info_of } := by
  simp only [build_packing_summary_for_single, hits, hn]
  rfl

theorem find_first_fit_split (pack : Packing) (items : List Item) :
    ∀ (l : List Bin) (pb : PackedBin), find_first_fit pack items l = some pb →
      ∃ l1 l2, l = l1 ++ pb.bin :: l2 ∧
        (∀ b ∈ l1, full_fit pack items b = false) ∧
        pack pb.bin items = .ok pb.fitted ∧ pb.fitted.length = items.length := by
  intro l
  induction l with
  | nil => intro pb h; simp [find_first_fit] at h
  | cons c rest ih =>
    intro pb h
    rw [find_first_fit] at h
    match hp : pack c items with
    | .error e =>
      rw [hp] at h
      have h' : find_first_fit pack items rest = some pb := h
      obtain ⟨l1, l2, hsplit, h1, h2, h3⟩ := ih pb h'
      refine ⟨c :: l1, l2, by rw [hsplit]; rfl, ?_, h2, h3⟩
      intro b hb
      rcases List.mem_cons.mp hb with rfl | hb
      · simp [full_fit, hp]
      · exact h1 b hb
    | .ok fitted =>
      rw [hp] at h
      have h' : (if fitted.length = items.length then some (⟨c, fitted⟩ : PackedBin)
          else find_first_fit pack items rest) = some pb := h
      by_cases hlen : fitted.length = items.length
      · rw [if_pos hlen] at h'
        obtain rfl : (⟨c, fitted⟩ : PackedBin) = pb := Option.some.inj h'
        exact ⟨[], rest, rfl, by simp, hp, hlen⟩
      · rw [if_neg hlen] at h'
        obtain ⟨l1, l2, hsplit, h1, h2, h3⟩ := ih pb h'
        refine ⟨c :: l1, l2, by rw [hsplit]; rfl, ?_, h2, h3⟩
        intro b hb
        rcases List.mem_cons.mp hb with rfl | hb
        · simp [full_fit, hp, hlen]
        · exact h1 b hb

theorem find_single_nonempty (pack : Packing) (items : List Item)
    (sizes : List SizeRec) (pb : PackedBin)
    (h : find_single_bin_for_items pack items sizes = some pb) :
    items.isEmpty = false ∧
    find_first_fit pack items ((build_bins_from_sizes sizes).mergeSort vol_le)
      = some pb := by
  unfold find_single_bin_for_items at h
  by_cases he : items.isEmpty
  · rw [if_pos he] at h; cases h
  · rw [if_neg he] at h
    exact ⟨Bool.eq_false_iff.mpr he, h⟩

/-! ## Claims about the Packing Selector -/

/-- C8: for every order whose effective expanded item set is empty, the
Packing Selector returns a null fit and the `PackingResult` is built without
raising: `build_packing_summary_for_single` returns an `ok` summary whose
`bin` is `none`. -/
theorem c8_empty_items_null_fit (pack : Packing) (order : Order)
    (sizes : List SizeRec) (i : Int)
    (h : build_items_from_order order = .ok []) :
    ∃ n, build_packing_summary_for_single pack order sizes i =
      .ok { order_index := some i, order_id := order.transaction_id,
            products_count := n, bin := none } := by
  obtain ⟨n, hn⟩ := products_len_ok_of_build order [] h
  refine ⟨n, ?_⟩
  rw [build_single_unfold pack order sizes i [] n h hn]
  simp [find_single_bin_for_items]

/-- An order whose single product line has a `None` height expands to no
items and yields an `ok`, null-fit summary (spec §8 example). -/
def order_null_height : Order :=
  ⟨some "T2", some 0, some (.list
    [{ title := none, id := none, length := some (.num 3), width := some (.num 3),
       height := none, weight := some (.num 1), quantity := some (.num 1),
       length_unit := none, weight_unit := none }])⟩

/-- A packer that reports every item as placed (used to instantiate the
abstract `py3dbp` parameter in witnesses). -/
def packAll : Packing := fun _ its => .ok its

theorem c8_witness :
    ∃ n, build_packing_summary_for_single packAll order_null_height [] 0 =
      .ok { order_index := some 0, order_id := order_null_height.transaction_id,
            products_count := n, bin := none } :=
  c8_empty_items_null_fit packAll order_null_height [] 0 (by decide)

/-- C1: for every order whose summary has a non-null chosen fit, the
`fitted_items` count recorded in the chosen fit equals the number of items
produced by expanding the order's product lines, and the chosen container was
accepted exactly because the packer placed all of them. -/
theorem c1_fitted_items_eq_expanded (pack : Packing) (order : Order)
    (sizes : List SizeRec) (i : Int) (s : Summary) (bi : BinInfo)
    (items : List Item)
    (hits : build_items_from_order order = .ok items)
    (hs : build_packing_summary_for_single pack order sizes i = .ok s)
    (hbin : s.bin = some bi) :
    bi.fitted_items = items.length ∧
    ∃ pb, find_single_bin_for_items pack items sizes = some pb ∧
      pack pb.bin items = .ok pb.fitted ∧
      pb.fitted.length = items.length ∧ bi = bin_info_of pb := by
  obtain ⟨n, hn⟩ := products_len_ok_of_build order items hits
  rw [build_single_unfold pack order sizes i items n hits hn] at hs
  obtain rfl : _ = s := Except.ok.inj hs
  simp only at hbin
  match hf : find_single_bin_for_items pack items sizes with
  | none => rw [hf] at hbin; cases hbin
  | some pb =>
    rw [hf] at hbin
    obtain rfl : bin_info_of pb = bi := Option.some.inj hbin
    obtain ⟨-, hfit⟩ := find_single_nonempty pack items sizes pb hf
    obtain ⟨l1, l2, -, -, hok, hlen⟩ :=
      find_first_fit_split pack items _ pb hfit
    exact ⟨hlen, pb, rfl, hok, hlen, rfl⟩

/-- The `BinInfo` produced in the C1 witness run. -/
def c1w_bin : BinInfo :=
  { name := "bin", length := 40, width := 30, height := 20, volume := 24000,
    fitted_items := 1, url := some "/b1" }

/-- The summary produced in the C1 witness run. -/
def c1w_summary : Summary :=
  { order_index := some 0, order_id := some "T1", products_count := 1,
    bin := some c1w_bin }

/-- A valid product line: 30×20×10 cm, 500 g, quantity 1. -/
def product_simple : RawProduct :=
  { title := none, id := none, length := some (.num 30), width := some (.num 20),
    height := some (.num 10), weight := some (.num 500), quantity := some (.num 1),
    length_unit := some "cm", weight_unit := some "g" }

/-- An order holding `product_simple`. -/
def order_simple : Order := ⟨some "T1", some 0, some (.list [product_simple])⟩

/-- Catalog record 40×30×20 (volume 24000). -/
def size_small : SizeRec :=
  { emptySizeRec with url := some "/b1", length := some (.num 40),
                      width := some (.num 30), height := some (.num 20) }

/-- Catalog record 100×100×100 (volume 1000000). -/
def size_big : SizeRec :=
  { emptySizeRec with url := some "/b2", length := some (.num 100),
                      width := some (.num 100), height := some (.num 100) }

/-- C2: selection is volume-monotonic — when a container is chosen for an
order's item set, every valid candidate of strictly smaller volume had its
packing attempt fail to place all items (it was tried earlier in the
ascending-volume scan and rejected). -/
theorem c2_volume_monotonic (pack : Packing) (order : Order) (items : List Item)
    (sizes : List SizeRec) (pb : PackedBin) (B : Bin)
    (_hits : build_items_from_order order = .ok items)
    (hfind : find_single_bin_for_items pack items sizes = some pb)
    (hB : B ∈ build_bins_from_sizes sizes)
    (hvol : bin_vol B < bin_vol pb.bin) :
    full_fit pack items B = false := by
  obtain ⟨-, hfit⟩ := find_single_nonempty pack items sizes pb hfind
  obtain ⟨l1, l2, hsplit, hfail, -, -⟩ := find_first_fit_split pack items _ pb hfit
  have hsorted : ((build_bins_from_sizes sizes).mergeSort vol_le).Pairwise
      (fun a b => vol_le a b = true) := by
    refine List.sorted_mergeSort ?_ ?_ (build_bins_from_sizes sizes)
    · intro a b c hab hbc
      simp only [vol_le, decide_eq_true_eq] at hab hbc ⊢
      exact le_trans hab hbc
    · intro a b
      simp only [vol_le, Bool.or_eq_true, decide_eq_true_eq]
      exact le_total (bin_vol a) (bin_vol b)
  have hBS : B ∈ (build_bins_from_sizes sizes).mergeSort vol_le :=
    List.mem_mergeSort.mpr hB
  rw [hsplit] at hsorted hBS
  rcases List.mem_append.mp hBS with h1 | h2
  · exact hfail B h1
  · rcases List.mem_cons.mp h2 with rfl | h3
    · exact absurd hvol (lt_irrefl _)
    · exfalso
      have hp : (pb.bin :: l2).Pairwise (fun a b => vol_le a b = true) :=
        (List.pairwise_append.mp hsorted).2.1
      have hle : vol_le pb.bin B = true := (List.pairwise_cons.mp hp).1 B h3
      simp only [vol_le, decide_eq_true_eq] at hle
      exact absurd hvol (not_lt.mpr hle)

/-- The bin built from `size_small`. -/
def bin_small : Bin :=
  { name := "bin", width := 30, height := 20, depth := 40,
    maxWeight := 100000, url := some "/b1" }

/-- The bin built from `size_big`. -/
def bin_big : Bin :=
  { name := "bin", width := 100, height := 100, depth := 100,
    maxWeight := 100000, url := some "/b2" }

/-- A packer that places nothing into narrow bins and everything into wide
ones (instantiates the abstract packer so that the small candidate is
rejected). -/
def pack_reject_narrow : Packing :=
  fun b its => if b.width < 50 then .ok [] else .ok its

/-- The single item `order_simple` expands to. -/
def item_simple : Item :=
  { name := "item", width := 20, height := 10, depth := 30, weight := 500 }

theorem c2_witness :
    full_fit pack_reject_narrow [item_simple] bin_small = false :=
  c2_volume_monotonic pack_reject_narrow order_simple [item_simple]
    [size_small, size_big] ⟨bin_big, [item_simple]⟩
    bin_small (by decide) (by decide) (by decide) (by decide)

theorem c1_witness :
    (build_packing_summary_for_single packAll order_simple [size_small, size_big] 0
        = .ok c1w_summary) ∧
    c1w_bin.fitted_items = (List.length [expanded_item product_simple 30 20 10 500]) := by
  refine ⟨by decide, ?_⟩
  exact (c1_fitted_items_eq_expanded packAll order_simple [size_small, size_big] 0
    c1w_summary c1w_bin [expanded_item product_simple 30 20 10 500]
    (by decide) (by decide) (by decide)).1

/-! ## Claim about the Item Expander (C3) -/

/-- A product line with valid dimensions and weight whose quantity is a
non-numeric string (`int()` raises on it). -/
def c3_bad_product : RawProduct :=
  { title := none, id := none, length := some (.num 1), width := some (.num 1),
    height := some (.num 1), weight := some (.num 1),
    quantity := some (.str "x" none none), length_unit := none, weight_unit := none }

/-- C3 counterexample: a line with present, numeric, positive dimensions and
non-negative weight whose quantity fails integer coercion yields **no** items
(the line is dropped), not the one item the claimed default of 1 would give. -/
theorem c3_counterexample :
    quantity_coerce c3_bad_product.quantity = none ∧
    items_of_product c3_bad_product = [] ∧
    (items_of_product c3_bad_product).length ≠ 1 := by decide

/-- C3 as amended: for a product line with present, numeric, positive
dimensions and non-negative weight, a `None` quantity defaults to 1 (one
item); a quantity whose integer coercion succeeds with value `q` yields
`max 1 q` identical items; a quantity whose integer coercion **raises** drops
the line (no items) rather than defaulting to 1. -/
theorem c3_amended_expansion (p : RawProduct) (lv wv hv wtv : PyVal) (l w h wt : ℚ)
    (hl : p.length = some lv) (hw : p.width = some wv) (hh : p.height = some hv)
    (hwt : p.weight = some wtv)
    (hfl : pyToFloat lv = some l) (hfw : pyToFloat wv = some w)
    (hfh : pyToFloat hv = some h) (hfwt : pyToFloat wtv = some wt)
    (hpos : 0 < l ∧ 0 < w ∧ 0 < h ∧ 0 ≤ wt) :
    (p.quantity = none → items_of_product p = [expanded_item p l w h wt]) ∧
    (∀ qv q, p.quantity = some qv → pyToInt qv = some q →
      items_of_product p = List.replicate (max 1 q).toNat (expanded_item p l w h wt)) ∧
    (∀ qv, p.quantity = some qv → pyToInt qv = none → items_of_product p = []) := by
  refine ⟨?_, ?_, ?_⟩
  · intro hq
    simp [items_of_product, hl, hw, hh, hwt, hfl, hfw, hfh, hfwt, quantity_coerce,
      hq, hpos]
  · intro qv q hq hcq
    simp [items_of_product, hl, hw, hh, hwt, hfl, hfw, hfh, hfwt, quantity_coerce,
      hq, hcq, hpos]
  · intro qv hq hcq
    simp [items_of_product, hl, hw, hh, hwt, hfl, hfw, hfh, hfwt, quantity_coerce,
      hq, hcq]

/-- A product line with quantity 3. -/
def c3w_product : RawProduct :=
  { title := none, id := none, length := some (.num 2), width := some (.num 3),
    height := some (.num 4), weight := some (.num 5), quantity := some (.num 3),
    length_unit := none, weight_unit := none }

theorem c3_witness :
    items_of_product c3w_product =
      List.replicate (max 1 (3 : Int)).toNat (expanded_item c3w_product 2 3 4 5) :=
  (c3_amended_expansion c3w_product (.num 2) (.num 3) (.num 4) (.num 5) 2 3 4 5
    rfl rfl rfl rfl (by decide) (by decide) (by decide) (by decide)
    (by refine ⟨by decide, by decide, by decide, by decide⟩)).2.1
    (.num 3) 3 rfl (by decide)

/-! ## Claim about the batch orchestrator (C6) -/

theorem build_order_ok_index (pack : Packing) (orders : List Order)
    (sizes : List SizeRec) (j : ℕ) (s : Summary)
    (h : build_packing_summary_for_order pack orders sizes j = .ok s) :
    s.order_index = some (j : Int) := by
  unfold build_packing_summary_for_order at h
  by_cases hj : j < orders.length
  · rw [dif_pos hj] at h
    simp only [] at h
    rcases hb : build_items_from_order (orders.get ⟨j, hj⟩) with e | its
    · rw [hb] at h; cases h
    · rw [hb] at h
      rcases hf : find_single_bin_that_fits_all_items pack orders sizes (j : Int)
          with e | bb
      · rw [hf] at h; cases h
      · rw [hf] at h
        rcases hp : products_len (orders.get ⟨j, hj⟩) with e | n
        · rw [hp] at h; cases h
        · rw [hp] at h
          obtain rfl := Except.ok.inj h
          rfl
  · rw [dif_neg hj] at h; cases h

/-- C6: in batch mode, an order whose summary construction raises is absent
from the output summaries (not recorded as a null-fit entry), while every
order below the limit whose construction succeeds still contributes its
summary. -/
theorem c6_faulty_order_dropped (pack : Packing) (orders : List Order)
    (sizes : List SizeRec) (maxOrders : Option Int) (i : ℕ)
    (_hi : i < compute_limit maxOrders orders.length)
    (herr : build_packing_summary_for_order pack orders sizes i = .error ()) :
    (∀ s ∈ (bin_packaging_perform pack orders sizes maxOrders).summaries,
        s.order_index ≠ some (i : Int)) ∧
    (∀ j, j < compute_limit maxOrders orders.length → ∀ s,
        build_packing_summary_for_order pack orders sizes j = .ok s →
        s ∈ (bin_packaging_perform pack orders sizes maxOrders).summaries) := by
  have hsum : (bin_packaging_perform pack orders sizes maxOrders).summaries =
      (List.range (compute_limit maxOrders orders.length)).filterMap
        (fun k => (build_packing_summary_for_order pack orders sizes k).toOption) := rfl
  constructor
  · intro s hs
    rw [hsum] at hs
    obtain ⟨j, _, hjs⟩ := List.mem_filterMap.mp hs
    have hok : build_packing_summary_for_order pack orders sizes j = .ok s := by
      rcases hb : build_packing_summary_for_order pack orders sizes j with e | t
      · rw [hb] at hjs; cases hjs
      · rw [hb] at hjs
        obtain rfl : t = s := Option.some.inj hjs
        rfl
    have hidx := build_order_ok_index pack orders sizes j s hok
    intro hcontra
    rw [hidx] at hcontra
    obtain rfl : j = i := by exact_mod_cast Option.some.inj hcontra
    rw [herr] at hok
    cases hok
  · intro j hj s hoks
    rw [hsum]
    exact List.mem_filterMap.mpr
      ⟨j, List.mem_range.mpr hj, by rw [hoks]; rfl⟩

/-- An order whose `"products"` value is a truthy non-iterable: building its
summary raises. -/
def order_bad_products : Order := ⟨none, none, some .nonIterable⟩

/-- The batch input for the C6 witness: the faulty order first, then a good
one. -/
def c6w_orders : List Order := [order_bad_products, order_simple]

/-- The summary the second (good) order produces against an empty catalog. -/
def c6w_summary : Summary :=
  { order_index := some 1, order_id := some "T1", products_count := 1, bin := none }

theorem c6_witness :
    (∀ s ∈ (bin_packaging_perform packAll c6w_orders [] none).summaries,
        s.order_index ≠ some 0) ∧
    c6w_summary ∈ (bin_packaging_perform packAll c6w_orders [] none).summaries := by
  have h := c6_faulty_order_dropped packAll c6w_orders [] none 0
    (by decide) (by decide)
  exact ⟨h.1, h.2 1 (by decide) c6w_summary (by decide)⟩

/-! ## Helper lemmas about the aggregation state -/

theorem dictGet_dictSet_self {α : Type} (k : String) (v : α) (l : List (String × α)) :
    dictGet k (dictSet k v l) = some v := by
  induction l with
  | nil => simp [dictGet, dictSet]
  | cons p rest ih =>
    by_cases hk : p.1 = k
    · simp [dictSet, dictGet, hk]
    · simp [dictSet, dictGet, hk, ih]

theorem dictGet_dictSet_ne {α : Type} (k k' : String) (v : α) (l : List (String × α))
    (h : k' ≠ k) : dictGet k' (dictSet k v l) = dictGet k' l := by
  have hkk : ¬(k = k') := fun hh => h hh.symm
  induction l with
  | nil => simp [dictGet, dictSet, hkk]
  | cons p rest ih =>
    obtain ⟨a, b⟩ := p
    by_cases hk : a = k
    · subst hk
      simp only [dictSet, if_pos rfl, dictGet, if_neg hkk]
    · simp only [dictSet, if_neg hk, dictGet]
      by_cases ha : a = k'
      · rw [if_pos ha, if_pos ha]
      · rw [if_neg ha, if_neg ha]
        exact ih

theorem mem_dictSet {α : Type} (k : String) (v : α) (l : List (String × α)) :
    ∀ p ∈ dictSet k v l, p = (k, v) ∨ p ∈ l := by
  induction l with
  | nil => intro p hp; simp [dictSet] at hp; exact Or.inl hp
  | cons q rest ih =>
    intro p hp
    by_cases hk : q.1 = k
    · simp only [dictSet, if_pos hk] at hp
      rcases List.mem_cons.mp hp with rfl | hp
      · exact Or.inl rfl
      · exact Or.inr (List.mem_cons.mpr (Or.inr hp))
    · simp only [dictSet, if_neg hk] at hp
      rcases List.mem_cons.mp hp with rfl | hp
      · exact Or.inr (List.mem_cons.mpr (Or.inl rfl))
      · rcases ih p hp with h | h
        · exact Or.inl h
        · exact Or.inr (List.mem_cons.mpr (Or.inr h))

theorem dictGet_eq_some_mem {α : Type} (k : String) (v : α) :
    ∀ (l : List (String × α)), dictGet k l = some v → (k, v) ∈ l := by
  intro l
  induction l with
  | nil => intro h; cases h
  | cons p rest ih =>
    intro h
    rw [dictGet] at h
    by_cases hk : p.1 = k
    · rw [if_pos hk] at h
      obtain rfl := Option.some.inj h
      exact List.mem_cons.mpr (Or.inl (by rw [← hk]))
    · rw [if_neg hk] at h
      exact List.mem_cons.mpr (Or.inr (ih h))

theorem foldl_preserve {α β : Type} (f : β → α → β) (P : β → Prop)
    (h : ∀ b a, P b → P (f b a)) :
    ∀ (l : List α) (b : β), P b → P (l.foldl f b) := by
  intro l
  induction l with
  | nil => intro b hb; exact hb
  | cons a rest ih => intro b hb; exact ih (f b a) (h b a hb)

/-- Whether a summary references container key `k` through a non-null fit
(the per-key counting predicate of the aggregation loop). -/
def hits_key (k : String) (s : Summary) : Bool :=
  match s.bin with
  | some bi => bin_key bi == k
  | none => false

/-- Whether a summary is aggregated at all: a non-null fit with a non-empty
container key. -/
def summary_eligible (s : Summary) : Bool :=
  match s.bin with
  | some bi => bin_key bi != ""
  | none => false

theorem analyze_step_skip (lookup : List (String × LookupInfo))
    (state : List (String × BinAcc)) (s : Summary)
    (h : summary_eligible s = false) :
    analyze_step lookup state s = state := by
  unfold analyze_step
  match hb : s.bin with
  | none => rfl
  | some bi =>
    have hk : bin_key bi = "" := by
      unfold summary_eligible at h
      rw [hb] at h
      simpa using h
    simp [hk]

theorem analyze_step_hit (lookup : List (String × LookupInfo))
    (state : List (String × BinAcc)) (s : Summary) (bi : BinInfo)
    (hb : s.bin = some bi) (hk : bin_key bi ≠ "") :
    analyze_step lookup state s =
      dictSet (bin_key bi)
        (add_use
          (if ((dictGet (bin_key bi) state).getD default_bin_acc).length = 0
           then set_meta ((dictGet (bin_key bi) state).getD default_bin_acc) bi (bin_key bi)
           else (dictGet (bin_key bi) state).getD default_bin_acc)
          (detail_of lookup s)) state := by
  unfold analyze_step
  rw [hb]
  simp [hk]

/-- The `usage_count` recorded for key `k` (0 when the key is absent). -/
def usage_at (state : List (String × BinAcc)) (k : String) : ℕ :=
  match dictGet k state with
  | some a => a.usage_count
  | none => 0

theorem usage_at_step (lookup : List (String × LookupInfo))
    (state : List (String × BinAcc)) (s : Summary) (k : String) (hk : k ≠ "") :
    usage_at (analyze_step lookup state s) k =
      usage_at state k + (if hits_key k s then 1 else 0) := by
  match hb : s.bin with
  | none =>
    rw [analyze_step_skip lookup state s (by unfold summary_eligible; rw [hb])]
    simp [hits_key, hb]
  | some bi =>
    by_cases hbk : bin_key bi = ""
    · rw [analyze_step_skip lookup state s (by unfold summary_eligible; rw [hb]; simp [hbk])]
      have hh : hits_key k s = false := by
        simp only [hits_key, hb, beq_eq_false_iff_ne, hbk]
        exact Ne.symm hk
      simp [hh]
    · rw [analyze_step_hit lookup state s bi hb hbk]
      by_cases hkk : bin_key bi = k
      · subst hkk
        have hh : hits_key (bin_key bi) s = true := by
          simp only [hits_key, hb, beq_self_eq_true]
        rw [hh]
        unfold usage_at
        rw [dictGet_dictSet_self]
        match hg : dictGet (bin_key bi) state with
        | none => simp [hg, add_use, set_meta, default_bin_acc]
        | some acc =>
          by_cases hlen : acc.length = 0
          · simp [hg, hlen, add_use, set_meta]
          · simp [hg, hlen, add_use]
      · have hh : hits_key k s = false := by
          simp only [hits_key, hb, beq_eq_false_iff_ne]
          exact hkk
        rw [hh]
        unfold usage_at
        rw [dictGet_dictSet_ne _ _ _ _ (fun hh' => hkk hh'.symm)]
        simp

theorem usage_at_foldl (lookup : List (String × LookupInfo)) (k : String) (hk : k ≠ "") :
    ∀ (summaries : List Summary) (state : List (String × BinAcc)),
      usage_at (summaries.foldl (analyze_step lookup) state) k =
        usage_at state k + summaries.countP (hits_key k) := by
  intro summaries
  induction summaries with
  | nil => intro state; simp
  | cons s rest ih =>
    intro state
    rw [List.foldl_cons, ih (analyze_step lookup state s),
      usage_at_step lookup state s k hk, List.countP_cons]
    omega

theorem dictSet_keys {α : Type} (k : String) (v : α) :
    ∀ (l : List (String × α)), (l.map Prod.fst).Nodup →
      ((dictSet k v l).map Prod.fst).Nodup ∧
      (∀ k', k' ∈ (dictSet k v l).map Prod.fst → k' ∈ l.map Prod.fst ∨ k' = k) := by
  intro l
  induction l with
  | nil =>
    intro _
    constructor
    · simp [dictSet]
    · intro k' hk'
      simp [dictSet] at hk'
      right; exact hk'
  | cons p rest ih =>
    obtain ⟨a, b⟩ := p
    intro hnd
    simp only [List.map_cons, List.nodup_cons] at hnd
    obtain ⟨ha, hrest⟩ := hnd
    by_cases hk : a = k
    · constructor
      · simp only [dictSet, if_pos hk, List.map_cons, List.nodup_cons]
        subst hk
        exact ⟨ha, hrest⟩
      · intro k' hk'
        simp only [dictSet, if_pos hk, List.map_cons] at hk'
        simp only [List.map_cons]
        rcases List.mem_cons.mp hk' with rfl | h
        · right; rfl
        · left; exact List.mem_cons.mpr (Or.inr h)
    · obtain ⟨ihn, ihm⟩ := ih hrest
      constructor
      · simp only [dictSet, if_neg hk, List.map_cons, List.nodup_cons]
        refine ⟨?_, ihn⟩
        intro hmem
        rcases ihm a hmem with h | h
        · exact ha h
        · exact hk h
      · intro k' hk'
        simp only [dictSet, if_neg hk, List.map_cons] at hk'
        simp only [List.map_cons]
        rcases List.mem_cons.mp hk' with rfl | h
        · left; exact List.mem_cons_self _ _
        · rcases ihm k' h with h' | h'
          · left; exact List.mem_cons.mpr (Or.inr h')
          · right; exact h'

theorem dictGet_of_mem_nodup {α : Type} :
    ∀ (l : List (String × α)), (l.map Prod.fst).Nodup →
      ∀ k v, (k, v) ∈ l → dictGet k l = some v := by
  intro l
  induction l with
  | nil => intro _ k v h; cases h
  | cons p rest ih =>
    obtain ⟨a, b⟩ := p
    intro hnd k v h
    simp only [List.map_cons, List.nodup_cons] at hnd
    rcases List.mem_cons.mp h with heq | hmem
    · obtain ⟨rfl, rfl⟩ := Prod.mk.injEq .. ▸ heq
      simp [dictGet]
    · have hk : ¬(a = k) := by
        intro hak
        subst hak
        exact hnd.1 (List.mem_map.mpr ⟨(a, v), hmem, rfl⟩)
      simp only [dictGet, if_neg hk]
      exact ih hnd.2 k v hmem

/-- The invariant the aggregation state maintains: keys are distinct, every
accumulator's stored `url` is its key (non-empty), and `usage_count` is
paired with exactly one appended detail per increment. -/
def state_inv (state : List (String × BinAcc)) : Prop :=
  (state.map Prod.fst).Nodup ∧
  ∀ p ∈ state, p.2.url = p.1 ∧ p.1 ≠ "" ∧
    p.2.usage_count = p.2.orders_detail.length ∧ 1 ≤ p.2.usage_count

theorem state_inv_step (lookup : List (String × LookupInfo)) :
    ∀ (state : List (String × BinAcc)) (s : Summary),
      state_inv state → state_inv (analyze_step lookup state s) := by
  intro state s hinv
  match hb : s.bin with
  | none => rw [analyze_step_skip lookup state s (by unfold summary_eligible; rw [hb])]; exact hinv
  | some bi =>
    by_cases hbk : bin_key bi = ""
    · rw [analyze_step_skip lookup state s
        (by unfold summary_eligible; rw [hb]; simp [hbk])]
      exact hinv
    · rw [analyze_step_hit lookup state s bi hb hbk]
      obtain ⟨hnd, hent⟩ := hinv
      set k := bin_key bi with hkdef
      set upd := (if ((dictGet k state).getD default_bin_acc).length = 0
        then set_meta ((dictGet k state).getD default_bin_acc) bi k
        else (dictGet k state).getD default_bin_acc) with hupd
      have hprops : upd.url = k ∧ upd.usage_count = upd.orders_detail.length := by
        rw [hupd]
        match hg : dictGet k state with
        | none => simp [set_meta, default_bin_acc]
        | some acc =>
          have hmem := dictGet_eq_some_mem k acc state hg
          have hurl : acc.url = k := (hent (k, acc) hmem).1
          have hpair : acc.usage_count = acc.orders_detail.length :=
            (hent (k, acc) hmem).2.2.1
          by_cases hlen : acc.length = 0
          · simp [hlen, set_meta, hpair]
          · simp [hlen, hurl, hpair]
      constructor
      · exact (dictSet_keys k (add_use upd (detail_of lookup s)) state hnd).1
      · intro p hp
        rcases mem_dictSet k (add_use upd (detail_of lookup s)) state p hp with rfl | hmem
        · refine ⟨?_, hbk, ?_, ?_⟩
          · simpa [add_use] using hprops.1
          · simp [add_use, hprops.2]
          · simp [add_use]
        · exact hent p hmem

theorem state_inv_analyze (lookup : List (String × LookupInfo))
    (summaries : List Summary) :
    state_inv (analyze_bin_usage lookup summaries) := by
  unfold analyze_bin_usage
  exact foldl_preserve _ state_inv (state_inv_step lookup) summaries []
    ⟨List.nodup_nil, by intro p hp; cases hp⟩

theorem mem_enhanced (accs : List (String × BinAcc)) (stat : Stat) :
    stat ∈ create_enhanced_statistics accs ↔ ∃ p ∈ accs, stat = enhance_one p.2 := by
  unfold create_enhanced_statistics
  rw [List.mem_mergeSort, List.mem_map]
  constructor
  · rintro ⟨p, hp, rfl⟩; exact ⟨p, hp, rfl⟩
  · rintro ⟨p, hp, rfl⟩; exact ⟨p, hp, rfl⟩

theorem perform_ok_elim (summaries : List Summary) (orders : List Order)
    (stats : List Stat) (h : bin_usage_perform summaries orders = .ok stats) :
    ∃ lookup, create_order_lookup orders = .ok lookup ∧
      stats = create_enhanced_statistics (analyze_bin_usage lookup summaries) := by
  unfold bin_usage_perform at h
  rcases hl : create_order_lookup orders with e | lookup
  · rw [hl] at h; cases h
  · rw [hl] at h
    exact ⟨lookup, rfl, (Except.ok.inj h).symm⟩

theorem analyze_filter_eligible (lookup : List (String × LookupInfo)) :
    ∀ (summaries : List Summary) (state : List (String × BinAcc)),
      (summaries.filter summary_eligible).foldl (analyze_step lookup) state =
        summaries.foldl (analyze_step lookup) state := by
  intro summaries
  induction summaries with
  | nil => intro state; rfl
  | cons s rest ih =>
    intro state
    by_cases he : summary_eligible s = true
    · rw [List.filter_cons_of_pos he, List.foldl_cons, List.foldl_cons, ih]
    · rw [List.filter_cons_of_neg he, List.foldl_cons,
        analyze_step_skip lookup state s (Bool.eq_false_iff.mpr he), ih]

/-! ## Claims about the Usage Aggregator (C5, C10, C7, C4) -/

/-- C5: every statistic's `usage_count` equals the number of input summaries
whose fit is non-null and whose container key equals the statistic's key, and
summaries with a null fit or an empty key contribute to no statistic at all
(filtering them away leaves the aggregation output unchanged). -/
theorem c5_usage_count_is_reference_count (summaries : List Summary)
    (orders : List Order) (stats : List Stat)
    (hperf : bin_usage_perform summaries orders = .ok stats) :
    (∀ stat ∈ stats, stat.url ≠ "" ∧
        stat.usage_count = summaries.countP (hits_key stat.url)) ∧
    bin_usage_perform (summaries.filter summary_eligible) orders = .ok stats := by
  obtain ⟨lookup, hl, rfl⟩ := perform_ok_elim summaries orders stats hperf
  constructor
  · intro stat hmem
    obtain ⟨⟨k, acc⟩, hacc, rfl⟩ := (mem_enhanced _ stat).mp hmem
    have hinv := state_inv_analyze lookup summaries
    have hurl : acc.url = k := (hinv.2 (k, acc) hacc).1
    have hk : k ≠ "" := (hinv.2 (k, acc) hacc).2.1
    have hget : dictGet k (List.foldl (analyze_step lookup) [] summaries) = some acc :=
      dictGet_of_mem_nodup _ hinv.1 k acc hacc
    have hcount := usage_at_foldl lookup k hk summaries []
    have husage : usage_at (List.foldl (analyze_step lookup) [] summaries) k =
        acc.usage_count := by
      unfold usage_at
      rw [hget]
    rw [husage] at hcount
    have hstat_url : (enhance_one acc).url = k := by simp [enhance_one, hurl]
    have hstat_usage : (enhance_one acc).usage_count = acc.usage_count := rfl
    rw [hstat_url, hstat_usage]
    refine ⟨hk, ?_⟩
    simpa [usage_at, dictGet] using hcount
  · unfold bin_usage_perform
    rw [hl]
    have heq : analyze_bin_usage lookup (summaries.filter summary_eligible) =
        analyze_bin_usage lookup summaries := by
      unfold analyze_bin_usage
      exact analyze_filter_eligible lookup summaries []
    show Except.ok (create_enhanced_statistics
        (analyze_bin_usage lookup (summaries.filter summary_eligible))) =
      Except.ok (create_enhanced_statistics (analyze_bin_usage lookup summaries))
    rw [heq]

/-- The inputs of the C5 witness: one summary referencing `/k`, one null-fit
summary and one empty-key summary. -/
def c5w_summaries : List Summary :=
  [{ order_index := some 0, order_id := some "T1", products_count := 1,
     bin := some { name := "b", length := 1, width := 1, height := 1, volume := 1,
                   fitted_items := 1, url := some "/k" } },
   { order_index := some 1, order_id := some "T2", products_count := 2, bin := none },
   { order_index := some 2, order_id := some "T3", products_count := 3,
     bin := some { name := "c", length := 2, width := 2, height := 2, volume := 8,
                   fitted_items := 1, url := none } }]

/-- The single statistic the C5 witness inputs aggregate to. -/
def c5w_stat : Stat :=
  { name := "b", url := "/k", length := 1, width := 1, height := 1, volume := 1,
    usage_count := 1,
    orders_detail := [{ order_id := some "T1", order_index := some 0,
                        products_count := 1, from_lookup := none }],
    total_unique_orders := 1, total_products_packed := 1, totals := none }

theorem c5_witness :
    c5w_stat ∈ create_enhanced_statistics (analyze_bin_usage [] c5w_summaries) ∧
    c5w_stat.url ≠ "" ∧
    c5w_stat.usage_count = c5w_summaries.countP (hits_key c5w_stat.url) := by
  refine ⟨by decide, ?_⟩
  exact (c5_usage_count_is_reference_count c5w_summaries [] _ rfl).1
    c5w_stat (by decide)

/-- C10: every finalized statistic satisfies
`usage_count = length of its orders_detail list` and `usage_count ≥ 1`. -/
theorem c10_usage_count_eq_detail_length (summaries : List Summary)
    (orders : List Order) (stats : List Stat)
    (hperf : bin_usage_perform summaries orders = .ok stats) :
    ∀ stat ∈ stats, stat.usage_count = stat.orders_detail.length ∧
      1 ≤ stat.usage_count := by
  obtain ⟨lookup, -, rfl⟩ := perform_ok_elim summaries orders stats hperf
  intro stat hmem
  obtain ⟨⟨k, acc⟩, hacc, rfl⟩ := (mem_enhanced _ stat).mp hmem
  have hinv := state_inv_analyze lookup summaries
  have hpair : acc.usage_count = acc.orders_detail.length :=
    (hinv.2 (k, acc) hacc).2.2.1
  have hge : 1 ≤ acc.usage_count := (hinv.2 (k, acc) hacc).2.2.2
  constructor
  · have hlen : (enhance_one acc).orders_detail.length = acc.orders_detail.length :=
      (List.mergeSort_perm acc.orders_detail detail_sort_le).length_eq
    rw [hlen]
    exact hpair
  · exact hge

theorem c10_witness :
    c5w_stat ∈ create_enhanced_statistics (analyze_bin_usage [] c5w_summaries) ∧
    c5w_stat.usage_count = c5w_stat.orders_detail.length ∧
    1 ≤ c5w_stat.usage_count := by
  refine ⟨by decide, ?_⟩
  exact c10_usage_count_eq_detail_length c5w_summaries [] _ rfl c5w_stat (by decide)

theorem dictGet_foldl_no_hit (lookup : List (String × LookupInfo)) (k : String) :
    ∀ (summaries : List Summary) (state : List (String × BinAcc)),
      (∀ t ∈ summaries, hits_key k t = false) →
      dictGet k (summaries.foldl (analyze_step lookup) state) = dictGet k state := by
  intro summaries
  induction summaries with
  | nil => intro state _; rfl
  | cons s rest ih =>
    intro state hall
    rw [List.foldl_cons]
    have hs := hall s (List.mem_cons_self s rest)
    have hstep : dictGet k (analyze_step lookup state s) = dictGet k state := by
      match hb : s.bin with
      | none =>
        rw [analyze_step_skip lookup state s (by unfold summary_eligible; rw [hb])]
      | some bi =>
        by_cases hbk : bin_key bi = ""
        · rw [analyze_step_skip lookup state s
            (by unfold summary_eligible; rw [hb]; simp [hbk])]
        · rw [analyze_step_hit lookup state s bi hb hbk]
          have hne : bin_key bi ≠ k := by
            simp only [hits_key, hb, beq_eq_false_iff_ne] at hs
            exact hs
          exact dictGet_dictSet_ne _ _ _ _ (fun hh => hne hh.symm)
    rw [ih (analyze_step lookup state s)
      (fun t ht => hall t (List.mem_cons.mpr (Or.inr ht))), hstep]

theorem analyze_meta_preserved (lookup : List (String × LookupInfo)) (k : String) :
    ∀ (post : List Summary) (state : List (String × BinAcc)) (acc : BinAcc),
      dictGet k state = some acc → acc.length ≠ 0 →
      ∃ acc', dictGet k (post.foldl (analyze_step lookup) state) = some acc' ∧
        acc'.name = acc.name ∧ acc'.length = acc.length ∧ acc'.width = acc.width ∧
        acc'.height = acc.height ∧ acc'.volume = acc.volume ∧ acc'.url = acc.url := by
  intro post
  induction post with
  | nil =>
    intro state acc hget hlen
    exact ⟨acc, hget, rfl, rfl, rfl, rfl, rfl, rfl⟩
  | cons s rest ih =>
    intro state acc hget hlen
    rw [List.foldl_cons]
    match hb : s.bin with
    | none =>
      rw [analyze_step_skip lookup state s (by unfold summary_eligible; rw [hb])]
      exact ih state acc hget hlen
    | some bi =>
      by_cases hbk : bin_key bi = ""
      · rw [analyze_step_skip lookup state s
          (by unfold summary_eligible; rw [hb]; simp [hbk])]
        exact ih state acc hget hlen
      · rw [analyze_step_hit lookup state s bi hb hbk]
        by_cases hkk : bin_key bi = k
        · subst hkk
          have hupd : (if ((dictGet (bin_key bi) state).getD default_bin_acc).length = 0
              then set_meta ((dictGet (bin_key bi) state).getD default_bin_acc) bi (bin_key bi)
              else (dictGet (bin_key bi) state).getD default_bin_acc) = acc := by
            rw [hget]
            simp [hlen]
          rw [hupd]
          obtain ⟨acc', hg', hn, hl, hw, hh, hv, hu⟩ :=
            ih (dictSet (bin_key bi) (add_use acc (detail_of lookup s)) state)
              (add_use acc (detail_of lookup s))
              (dictGet_dictSet_self (bin_key bi) _ state)
              (by simpa [add_use] using hlen)
          exact ⟨acc', hg', by simpa [add_use] using hn, by simpa [add_use] using hl,
            by simpa [add_use] using hw, by simpa [add_use] using hh,
            by simpa [add_use] using hv, by simpa [add_use] using hu⟩
        · have hsame : dictGet k (dictSet (bin_key bi)
              (add_use (if ((dictGet (bin_key bi) state).getD default_bin_acc).length = 0
                then set_meta ((dictGet (bin_key bi) state).getD default_bin_acc) bi (bin_key bi)
                else (dictGet (bin_key bi) state).getD default_bin_acc)
                (detail_of lookup s)) state) = some acc := by
            rw [dictGet_dictSet_ne _ _ _ _ (fun hh => hkk hh.symm)]
            exact hget
          exact ih _ acc hsame hlen

/-- First C7 input: a fit for key `/k` reporting a **zero** length (falsy). -/
def c7_sum_a : Summary :=
  { order_index := some 0, order_id := none, products_count := 0,
    bin := some { name := "A", length := 0, width := 3, height := 3, volume := 0,
                  fitted_items := 0, url := some "/k" } }

/-- Second C7 input: a later fit for the same key with different metadata. -/
def c7_sum_b : Summary :=
  { order_index := some 1, order_id := none, products_count := 0,
    bin := some { name := "B", length := 7, width := 9, height := 9, volume := 567,
                  fitted_items := 0, url := some "/k" } }

/-- C7 counterexample: when the first fit observed for a key reports a falsy
(zero) length, a later fit for the same key **does** overwrite the stored
container metadata — the emitted statistic carries the second summary's name
and width, not the first's. -/
theorem c7_counterexample :
    (bin_usage_perform [c7_sum_a, c7_sum_b] []).toOption.map
        (fun l => l.map (fun st => (st.name, st.width))) = some [("B", (9 : ℚ))] ∧
    ("B", (9 : ℚ)) ≠ ("A", (3 : ℚ)) := by decide

theorem analyze_falsy_preserved (lookup : List (String × LookupInfo)) (k : String) :
    ∀ (pre : List Summary) (state : List (String × BinAcc)),
      (∀ t ∈ pre, ∀ bj, t.bin = some bj → bin_key bj = k → bj.length = 0) →
      (∀ acc, dictGet k state = some acc → acc.length = 0) →
      ∀ acc, dictGet k (pre.foldl (analyze_step lookup) state) = some acc →
        acc.length = 0 := by
  intro pre
  induction pre with
  | nil => intro state _ hstate acc hacc; exact hstate acc hacc
  | cons t rest ih =>
    intro state hall hstate
    rw [List.foldl_cons]
    apply ih (analyze_step lookup state t)
      (fun u hu => hall u (List.mem_cons.mpr (Or.inr hu)))
    intro acc hacc
    match hb : t.bin with
    | none =>
      rw [analyze_step_skip lookup state t
        (by unfold summary_eligible; rw [hb])] at hacc
      exact hstate acc hacc
    | some bj =>
      by_cases hbk : bin_key bj = ""
      · rw [analyze_step_skip lookup state t
          (by unfold summary_eligible; rw [hb]; simp [hbk])] at hacc
        exact hstate acc hacc
      · rw [analyze_step_hit lookup state t bj hb hbk] at hacc
        by_cases hkk : bin_key bj = k
        · subst hkk
          rw [dictGet_dictSet_self] at hacc
          obtain rfl := (Option.some.inj hacc).symm
          have hlen0 : bj.length = 0 := hall t (List.mem_cons_self t rest) bj hb rfl
          match hg : dictGet (bin_key bj) state with
          | none => simp [hg, add_use, set_meta, default_bin_acc, hlen0]
          | some acc0 =>
            have h0 := hstate acc0 hg
            simp [hg, h0, add_use, set_meta, hlen0]
        · rw [dictGet_dictSet_ne _ _ _ _ (fun hh => hkk hh.symm)] at hacc
          exact hstate acc hacc

/-- C7 as amended: the container metadata stored for a key are those of the
first PackingResult observed for that key **whose reported length is truthy
(non-zero)** — any earlier results for the key, all reporting a falsy (zero)
length, do not fix them — and once captured they are never overwritten.
Moreover (second conjunct), while the stored length for a key is still falsy,
each summary for the key overwrites the stored metadata with its own. -/
theorem c7_amended_first_truthy_metadata (summaries : List Summary)
    (orders : List Order) (stats : List Stat) (pre post : List Summary)
    (s : Summary) (bi : BinInfo)
    (hsplit : summaries = pre ++ s :: post)
    (hbin : s.bin = some bi) (hk : bin_key bi ≠ "") (hlen : bi.length ≠ 0)
    (hpre : ∀ t ∈ pre, ∀ bj, t.bin = some bj → bin_key bj = bin_key bi →
      bj.length = 0)
    (hperf : bin_usage_perform summaries orders = .ok stats) :
    (∃ stat ∈ stats, stat.url = bin_key bi ∧ stat.name = bi.name ∧
      stat.length = bi.length ∧ stat.width = bi.width ∧
      stat.height = bi.height ∧ stat.volume = bi.volume) ∧
    (∀ (lookup : List (String × LookupInfo)) (state : List (String × BinAcc))
        (t : Summary) (bj : BinInfo), t.bin = some bj → bin_key bj ≠ "" →
      ((dictGet (bin_key bj) state).getD default_bin_acc).length = 0 →
      ∃ acc', dictGet (bin_key bj) (analyze_step lookup state t) = some acc' ∧
        acc'.name = bj.name ∧ acc'.length = bj.length ∧ acc'.width = bj.width ∧
        acc'.height = bj.height ∧ acc'.volume = bj.volume ∧
        acc'.url = bin_key bj) := by
  constructor
  · obtain ⟨lookup, -, rfl⟩ := perform_ok_elim summaries orders stats hperf
    subst hsplit
    have hfold : analyze_bin_usage lookup (pre ++ s :: post) =
        (s :: post).foldl (analyze_step lookup) (pre.foldl (analyze_step lookup) []) := by
      unfold analyze_bin_usage
      rw [List.foldl_append]
    have hfalsy : ∀ acc,
        dictGet (bin_key bi) (pre.foldl (analyze_step lookup) []) = some acc →
        acc.length = 0 :=
      analyze_falsy_preserved lookup (bin_key bi) pre [] hpre
        (by intro acc hacc; cases hacc)
    set st1 := pre.foldl (analyze_step lookup) [] with hst1
    have hguard : ((dictGet (bin_key bi) st1).getD default_bin_acc).length = 0 := by
      match hg : dictGet (bin_key bi) st1 with
      | none => simp [default_bin_acc]
      | some acc0 => simpa using hfalsy acc0 hg
    set v1 := add_use
      (set_meta ((dictGet (bin_key bi) st1).getD default_bin_acc) bi (bin_key bi))
      (detail_of lookup s) with hv1
    have hstep : analyze_step lookup st1 s = dictSet (bin_key bi) v1 st1 := by
      rw [analyze_step_hit lookup st1 s bi hbin hk, if_pos hguard]
    have hget1 : dictGet (bin_key bi) (analyze_step lookup st1 s) = some v1 := by
      rw [hstep]
      exact dictGet_dictSet_self (bin_key bi) v1 st1
    have hlen1 : v1.length ≠ 0 := by
      rw [hv1]
      simpa [add_use, set_meta] using hlen
    obtain ⟨accF, hgetF, hname, hlenF, hwidth, hheight, hvolume, hurl⟩ :=
      analyze_meta_preserved lookup (bin_key bi) post (analyze_step lookup st1 s)
        v1 hget1 hlen1
    have hfinal : dictGet (bin_key bi) (analyze_bin_usage lookup (pre ++ s :: post))
        = some accF := by
      rw [hfold, List.foldl_cons]
      exact hgetF
    have hmemF := dictGet_eq_some_mem _ _ _ hfinal
    refine ⟨enhance_one accF, (mem_enhanced _ _).mpr ⟨(bin_key bi, accF), hmemF, rfl⟩,
      ?_, ?_, ?_, ?_, ?_, ?_⟩
    · show accF.url = bin_key bi
      rw [hurl, hv1]
      simp [add_use, set_meta]
    · show accF.name = bi.name
      rw [hname, hv1]
      simp [add_use, set_meta]
    · show accF.length = bi.length
      rw [hlenF, hv1]
      simp [add_use, set_meta]
    · show accF.width = bi.width
      rw [hwidth, hv1]
      simp [add_use, set_meta]
    · show accF.height = bi.height
      rw [hheight, hv1]
      simp [add_use, set_meta]
    · show accF.volume = bi.volume
      rw [hvolume, hv1]
      simp [add_use, set_meta]
  · intro lookup state t bj hb hbk hguard
    refine ⟨add_use
      (set_meta ((dictGet (bin_key bj) state).getD default_bin_acc) bj (bin_key bj))
      (detail_of lookup t), ?_, ?_, ?_, ?_, ?_, ?_, ?_⟩
    · rw [analyze_step_hit lookup state t bj hb hbk, if_pos hguard]
      exact dictGet_dictSet_self (bin_key bj) _ state
    · simp [add_use, set_meta]
    · simp [add_use, set_meta]
    · simp [add_use, set_meta]
    · simp [add_use, set_meta]
    · simp [add_use, set_meta]
    · simp [add_use, set_meta]

/-- The `bin` dict of `c7_sum_b` (the first truthy-length fit in the C7
witness run). -/
def c7w_binfo : BinInfo :=
  { name := "B", length := 7, width := 9, height := 9, volume := 567,
    fitted_items := 0, url := some "/k" }

/-- A stored accumulator for `/k` whose captured length is still falsy. -/
def c7w_acc0 : BinAcc :=
  { name := "A", url := "/k", length := 0, width := 3, height := 3, volume := 0,
    usage_count := 1, orders_detail := [] }

theorem c7_witness :
    (∃ stat ∈ create_enhanced_statistics (analyze_bin_usage [] [c7_sum_a, c7_sum_b]),
      stat.url = "/k" ∧ stat.name = "B" ∧ stat.length = 7 ∧ stat.width = 9 ∧
      stat.height = 9 ∧ stat.volume = 567) ∧
    (∃ acc', dictGet "/k" (analyze_step [] [("/k", c7w_acc0)] c7_sum_b) = some acc' ∧
      acc'.name = "B" ∧ acc'.length = 7 ∧ acc'.width = 9 ∧ acc'.height = 9 ∧
      acc'.volume = 567 ∧ acc'.url = "/k") := by
  have h := c7_amended_first_truthy_metadata [c7_sum_a, c7_sum_b] [] _
    [c7_sum_a] [] c7_sum_b c7w_binfo
    rfl rfl (by decide) (by decide)
    (by
      intro t ht bj hbj hkey
      have ht' : t = c7_sum_a := by simpa using ht
      subst ht'
      have hbj' := Option.some.inj hbj
      subst hbj'
      rfl)
    rfl
  refine ⟨by simpa using h.1, ?_⟩
  have hb := h.2 [] [("/k", c7w_acc0)] c7_sum_b c7w_binfo rfl (by decide) (by decide)
  simpa using hb

/-- A summary whose order id resolves in the lookup. -/
def c4_summary : Summary :=
  { order_index := some 0, order_id := some "T", products_count := 1,
    bin := some { name := "b", length := 1, width := 1, height := 1, volume := 1,
                  fitted_items := 1, url := some "/k" } }

/-- An order with id `"T"` and an **empty** product list, so the joined
`actual_products_count` is 0. -/
def c4_order : Order := ⟨some "T", some 0, some (.list [])⟩

/-- C4 counterexample: the single detail carries `actual_products_count`
(its lookup join is present), yet `total_actual_products`/`total_quantity`
are **omitted** because the sum is 0 — the fields are keyed on a positive sum,
not on the key being carried. -/
theorem c4_counterexample :
    (bin_usage_perform [c4_summary] [c4_order]).toOption.map
        (fun l => l.map (fun st =>
          (st.totals, st.orders_detail.map (fun d => d.from_lookup.isSome)))) =
      some [(none, [true])] := by decide

/-- C4 as amended: a statistic carries `total_actual_products` and
`total_quantity` **iff** the sum of the `actual_products_count` values carried
by its details is positive; in particular, when no detail carries the field
both are absent (the original claim's presence direction fails when every
carried value is 0). -/
theorem c4_amended_totals_iff_positive (summaries : List Summary)
    (orders : List Order) (stats : List Stat)
    (hperf : bin_usage_perform summaries orders = .ok stats) :
    ∀ stat ∈ stats,
      (stat.totals.isSome ↔ 0 < (stat.orders_detail.map detail_actual).sum) ∧
      ((∀ d ∈ stat.orders_detail, d.from_lookup = none) → stat.totals = none) := by
  obtain ⟨lookup, -, rfl⟩ := perform_ok_elim summaries orders stats hperf
  intro stat hmem
  obtain ⟨⟨k, acc⟩, hacc, rfl⟩ := (mem_enhanced _ stat).mp hmem
  have hsum : ((acc.orders_detail.mergeSort detail_sort_le).map detail_actual).sum =
      (acc.orders_detail.map detail_actual).sum :=
    ((List.mergeSort_perm acc.orders_detail detail_sort_le).map detail_actual).sum_eq
  constructor
  · by_cases h0 : 0 < (acc.orders_detail.map detail_actual).sum
    · simp [enhance_one, h0, hsum]
    · simp [enhance_one, h0, hsum]
  · intro hall
    have hz : (acc.orders_detail.map detail_actual).sum = 0 := by
      apply List.sum_eq_zero
      intro x hx
      obtain ⟨d, hd, rfl⟩ := List.mem_map.mp hx
      have hd' : d ∈ acc.orders_detail.mergeSort detail_sort_le :=
        List.mem_mergeSort.mpr hd
      have hdl : d.from_lookup = none := hall d (by simpa [enhance_one] using hd')
      simp [detail_actual, hdl]
    simp [enhance_one, hz]

/-- An order with id `"T"` and one product line (so the joined
`actual_products_count` is 1, making the totals positive). -/
def c4w_order : Order := ⟨some "T", some 0, some (.list [product_simple])⟩

theorem c4_witness :
    ∃ stats, bin_usage_perform [c4_summary] [c4w_order] = .ok stats ∧
      ∀ stat ∈ stats,
        (stat.totals.isSome ↔ 0 < (stat.orders_detail.map detail_actual).sum) ∧
        ((∀ d ∈ stat.orders_detail, d.from_lookup = none) → stat.totals = none) := by
  refine ⟨_, rfl, ?_⟩
  exact c4_amended_totals_iff_positive [c4_summary] [c4w_order] _ rfl

/-! ## Claim about the Report Joiner (C9) -/

/-- C9: every statistic yields exactly one CSV row (plus the single header
row), even without a catalog match; `Type` (index 3) is always the literal
`"bin"`, `MaxWeight [g]` (index 10) and `Cost` (index 12) are always blank,
and when the key has no catalog match every catalog-sourced column renders as
the empty string. -/
theorem py_strip_empty : py_strip "" = "" := rfl

theorem c9_one_row_per_stat (typ : String) (stats : List Stat)
    (sizes : List SizeRec) :
    (bin_usage_csv_rows typ stats sizes).length = stats.length + 1 ∧
    bin_usage_csv_rows typ stats sizes =
      csv_header :: stats.map (csv_row_of (build_url_to_size sizes)) ∧
    ∀ stat ∈ stats,
      (csv_row_of (build_url_to_size sizes) stat)[3]? = some "bin" ∧
      (csv_row_of (build_url_to_size sizes) stat)[10]? = some "" ∧
      (csv_row_of (build_url_to_size sizes) stat)[12]? = some "" ∧
      (dictGet (py_strip stat.url) (build_url_to_size sizes) = none →
        ∀ j ∈ ([0, 2, 4, 5, 6, 7, 8, 9, 11, 13] : List ℕ),
          (csv_row_of (build_url_to_size sizes) stat)[j]? = some "") := by
  refine ⟨by simp [bin_usage_csv_rows], rfl, ?_⟩
  intro stat _
  refine ⟨rfl, rfl, rfl, ?_⟩
  intro hnone j hj
  fin_cases hj <;>
    simp [csv_row_of, hnone, emptySizeRec, first_non_empty, to_float_str, orVal,
      py_strip_empty]

/-- A statistic whose key has no catalog match. -/
def c9w_stat : Stat :=
  { name := "b", url := "/nomatch", length := 1, width := 1, height := 1,
    volume := 1, usage_count := 2, orders_detail := [], total_unique_orders := 0,
    total_products_packed := 0, totals := none }

theorem c9_witness :
    (bin_usage_csv_rows "kc" [c9w_stat] [size_small]).length = 1 + 1 ∧
    (csv_row_of (build_url_to_size [size_small]) c9w_stat)[3]? = some "bin" ∧
    (csv_row_of (build_url_to_size [size_small]) c9w_stat)[10]? = some "" ∧
    (csv_row_of (build_url_to_size [size_small]) c9w_stat)[12]? = some "" ∧
    (csv_row_of (build_url_to_size [size_small]) c9w_stat)[0]? = some "" ∧
    (csv_row_of (build_url_to_size [size_small]) c9w_stat)[13]? = some "" := by
  have h := c9_one_row_per_stat "kc" [c9w_stat] [size_small]
  have hs := h.2.2 c9w_stat (List.mem_cons_self c9w_stat [])
  have hnone : dictGet (py_strip c9w_stat.url) (build_url_to_size [size_small])
      = none := by decide
  exact ⟨h.1, hs.1, hs.2.1, hs.2.2.1,
    hs.2.2.2 hnone 0 (by decide), hs.2.2.2 hnone 13 (by decide)⟩

end WebFlow
